import Mathlib

/-!
Shallow embedding of the transaction extraction and classification engine of
`src/main.py` (BankConv).  Strings are modelled as `List Char`, Python floats
as `ℚ` (every numeric value handled by the program is a decimal literal with
two fractional digits, so exact rationals model the values and their order),
and Python exceptions as `Option`/`Except`.
-/

set_option autoImplicit false

namespace BankConv

/-- Characters accepted by the Python regex class `[\d,]` in `AMOUNT_PATTERN`
(`src/main.py` line 40): an ASCII digit or a comma. -/
def isAmtChar (c : Char) : Bool := c.isDigit || c = ','

/-- The whitespace set of Python `str.strip()` (ASCII part). -/
def isPySpace (c : Char) : Bool :=
  c = ' ' || c = '\t' || c = '\n' || c = '\r' || c = '\x0b' || c = '\x0c'

/-- Python `s.strip()`: drop leading and trailing whitespace. -/
def pyStrip (s : List Char) : List Char :=
  ((s.dropWhile isPySpace).reverse.dropWhile isPySpace).reverse

/-- Python `text.split("\n")` (`src/main.py` line 45): split at every newline,
keeping empty segments; the empty text yields one empty line. -/
def splitLines : List Char → List (List Char)
  | [] => [[]]
  | c :: rest =>
    if c = '\n' then [] :: splitLines rest
    else
      match splitLines rest with
      | [] => [[c]]
      | l :: ls => (c :: l) :: ls

/-- Match of `DATE_PATTERN = \d{2}-\d{2}-\d{4}` (`src/main.py` line 39) at the
head of the text: ten characters, digits and hyphens in the fixed shape. -/
def matchDateAt : List Char → Option (List Char)
  | a :: b :: c :: d :: e :: f :: g :: h :: i :: j :: _ =>
    if a.isDigit && b.isDigit && c = '-' && d.isDigit && e.isDigit && f = '-'
        && g.isDigit && h.isDigit && i.isDigit && j.isDigit
    then some [a, b, c, d, e, f, g, h, i, j] else none
  | _ => none

/-- Python `DATE_PATTERN.search(line)` (`src/main.py` line 49): the leftmost
match of the date pattern, scanning position by position. -/
def searchDate : List Char → Option (List Char)
  | [] => none
  | c :: rest =>
    match matchDateAt (c :: rest) with
    | some tok => some tok
    | none => searchDate rest

/-- Match of `AMOUNT_PATTERN = ([\d,]+\.\d{2})` at the head of the text.  The
greedy run `[\d,]+` must be maximal: a shorter run would have to be followed by
`.`, but every character inside the maximal run is a digit or comma, so regex
backtracking can never succeed with a shorter run.  Returns the matched token
and the remaining text after it. -/
def matchAmountAt (s : List Char) : Option (List Char × List Char) :=
  let run := s.takeWhile isAmtChar
  match s.dropWhile isAmtChar with
  | p :: x :: y :: rest =>
    if !run.isEmpty && p = '.' && x.isDigit && y.isDigit
    then some (run ++ [p, x, y], rest)
    else none
  | _ => none

/-- Scan of `AMOUNT_PATTERN.findall(line)` (`src/main.py` line 53): at each
position try to match; on success emit the token and resume after it, else
advance one character.  `fuel` bounds the recursion; every step consumes at
least one character, so `fuel = length` never runs out. -/
def findAmountsGo : Nat → List Char → List (List Char)
  | 0, _ => []
  | _ + 1, [] => []
  | fuel + 1, c :: rest =>
    match matchAmountAt (c :: rest) with
    | some (tok, r) => tok :: findAmountsGo fuel r
    | none => findAmountsGo fuel rest

/-- Python `AMOUNT_PATTERN.findall(line)`: all non-overlapping matches, left to
right. -/
def findAmounts (s : List Char) : List (List Char) :=
  findAmountsGo s.length s

/-- One scan step of Python `s.replace(pat, "")` for non-empty `pat`: at every
position, if `pat` starts here skip it, else keep the character; occurrences
are non-overlapping, left to right.  `fuel = length` never runs out since each
step consumes at least one character. -/
def replaceAllGo (pat : List Char) : Nat → List Char → List Char
  | 0, s => s
  | _ + 1, [] => []
  | fuel + 1, c :: rest =>
    if pat.isPrefixOf (c :: rest)
    then replaceAllGo pat fuel (List.drop (pat.length - 1) rest)
    else c :: replaceAllGo pat fuel rest

/-- Python `s.replace(pat, "")` (`src/main.py` lines 66-68): delete every
occurrence of `pat` in `s`. -/
def replaceAll (s pat : List Char) : List Char :=
  if pat.isEmpty then s else replaceAllGo pat s.length s

/-- Python `tok.replace(",", "")` (`src/main.py` lines 59, 63, 64). -/
def stripCommas (s : List Char) : List Char := s.filter (fun c => c != ',')

/-- Numeric value of a digit string, most significant digit first. -/
def digitsToNat (ds : List Char) : Nat :=
  ds.foldl (fun n c => 10 * n + (c.toNat - '0'.toNat)) 0

/-- Model of Python `float()` on the unsigned decimal literals reachable here
(comma-stripped `AMOUNT_PATTERN` tokens, i.e. shapes `\d*\.\d*` and `\d+`):
`none` models a raised `ValueError`, `some q` the exact value. -/
def parseDecimal (s : List Char) : Option ℚ :=
  let intPart := s.takeWhile Char.isDigit
  match s.dropWhile Char.isDigit with
  | [] => if intPart.isEmpty then none else some (digitsToNat intPart : ℚ)
  | p :: frac =>
    if p = '.' && frac.all Char.isDigit && !(intPart.isEmpty && frac.isEmpty)
    then some ((digitsToNat intPart : ℚ) + (digitsToNat frac : ℚ) / (10 : ℚ) ^ frac.length)
    else none

/-- A transaction record as built by `extract_transactions`
(`src/main.py` lines 71-77). -/
structure Txn where
  date : List Char
  description : List Char
  amount : ℚ
  balance : Option ℚ
  type : String
deriving DecidableEq, Repr

/-- One iteration of the extraction loop (`src/main.py` lines 48-77) on a
single line.  Outer `none` models an uncaught exception (a failing `float`
conversion aborting the whole extraction); `some none` a line that produced no
record (`continue`); `some (some t)` an appended record. -/
def extractLine (line : List Char) : Option (Option Txn) :=
  match searchDate line with
  | none => some none
  | some date =>
    let amts := findAmounts line
    if amts.isEmpty then some none else
    let amountStr :=
      if 2 ≤ amts.length then stripCommas ((amts.get? (amts.length - 2)).getD [])
      else stripCommas ((amts.getLast?).getD [])
    let balanceStr : Option (List Char) :=
      if 2 ≤ amts.length then some (stripCommas ((amts.getLast?).getD [])) else none
    let description := pyStrip (amts.foldl (fun d a => replaceAll d a) (replaceAll line date))
    match parseDecimal amountStr with
    | none => none
    | some amountVal =>
      match balanceStr with
      | none => some (some ⟨date, description, amountVal, none, "unknown"⟩)
      | some bs =>
        if bs.isEmpty then some (some ⟨date, description, amountVal, none, "unknown"⟩)
        else
          match parseDecimal bs with
          | none => none
          | some balVal => some (some ⟨date, description, amountVal, some balVal, "unknown"⟩)

/-- The extraction loop over a list of lines.  `none` propagates an exception;
otherwise the produced records are collected in line order. -/
def extractLines : List (List Char) → Option (List Txn)
  | [] => some []
  | l :: ls =>
    match extractLine l with
    | none => none
    | some none => extractLines ls
    | some (some t) =>
      match extractLines ls with
      | none => none
      | some ts => some (t :: ts)

/-- `extract_transactions(text)` (`src/main.py` lines 44-79). -/
def extractTransactions (text : List Char) : Option (List Txn) :=
  extractLines (splitLines text)

/-- Python `s.upper()` character by character (ASCII; model of
`txn["description"].upper()`, `src/main.py` line 87). -/
def upperStr (s : List Char) : List Char := s.map Char.toUpper

/-- Python substring containment `pat in s`. -/
def containsSub : List Char → List Char → Bool
  | [], pat => pat.isEmpty
  | c :: rest, pat => pat.isPrefixOf (c :: rest) || containsSub rest pat

/-- The credit-marker condition of `src/main.py` line 91:
`" CR" in desc or "/CR/" in desc or desc.endswith("CR")` on the uppercased
description. -/
def creditCond (t : Txn) : Bool :=
  let d := upperStr t.description
  containsSub d (" CR".toList) || containsSub d ("/CR/".toList)
    || List.isSuffixOf ("CR".toList) d

/-- The debit-marker condition of `src/main.py` line 93:
`" DR" in desc or "/DR/" in desc or desc.endswith("DR")` on the uppercased
description. -/
def debitCond (t : Txn) : Bool :=
  let d := upperStr t.description
  containsSub d (" DR".toList) || containsSub d ("/DR/".toList)
    || List.isSuffixOf ("DR".toList) d

/-- The balance-fallback branch of `apply_transaction_logic`
(`src/main.py` lines 97-101): compare the current balance against the carried
previous balance when both are present; on a tie (or a missing side) the
record is unchanged. -/
def balanceTier (prev : Option ℚ) (t : Txn) : Txn :=
  match prev, t.balance with
  | some pb, some cb =>
    if pb < cb then { t with type := "credit" }
    else if cb < pb then { t with type := "debit" }
    else t
  | _, _ => t

/-- The per-record body of the `apply_transaction_logic` loop
(`src/main.py` lines 86-101): explicit CR/DR markers first, then the balance
fallback. -/
def classifyTxn (prev : Option ℚ) (t : Txn) : Txn :=
  if creditCond t then { t with type := "credit" }
  else if debitCond t then { t with type := "debit" }
  else balanceTier prev t

/-- The update of `prev_balance` after a record (`src/main.py` line 103):
`prev_balance = curr_balance if curr_balance is not None else prev_balance`. -/
def nextPrev (prev : Option ℚ) (t : Txn) : Option ℚ :=
  match t.balance with
  | some b => some b
  | none => prev

/-- The loop of `apply_transaction_logic` with the carried `prev_balance`. -/
def applyGo (prev : Option ℚ) : List Txn → List Txn
  | [] => []
  | t :: ts => classifyTxn prev t :: applyGo (nextPrev prev t) ts

/-- `apply_transaction_logic(transactions)` (`src/main.py` lines 83-105):
`prev_balance` starts as `None`. -/
def applyTransactionLogic (ts : List Txn) : List Txn := applyGo none ts

/-- The structured failures of the upload flow (`src/main.py` lines 140-147).
`extractFailed` models an exception escaping `extract_transactions`
uncaught. -/
inductive UploadErr where
  | emptyInput
  | noTransactionsFound
  | extractFailed
deriving DecidableEq, Repr

/-- The text-processing core of the `/upload` endpoint
(`src/main.py` lines 140-147): reject blank text, extract, classify, reject an
empty record list. -/
def processText (text : List Char) : Except UploadErr (List Txn) :=
  if (pyStrip text).isEmpty then Except.error UploadErr.emptyInput
  else
    match extractTransactions text with
    | none => Except.error UploadErr.extractFailed
    | some ts =>
      let classified := applyTransactionLogic ts
      if classified.isEmpty then Except.error UploadErr.noTransactionsFound
      else Except.ok classified

/-- Round half to even to an integer, the mode of Python's built-in
`round`. -/
def roundHalfEven (q : ℚ) : ℤ :=
  let f := ⌊q⌋
  if q - f < 1 / 2 then f
  else if 1 / 2 < q - f then f + 1
  else if f % 2 = 0 then f else f + 1

/-- Python `round(x, 2)`: round half to even at two decimal places. -/
def roundTo2 (q : ℚ) : ℚ := (roundHalfEven (q * 100) : ℚ) / 100

/-- The summary block of the `/upload` endpoint (`src/main.py` lines 160-175). -/
structure Summary where
  total_transactions : Nat
  total_credit : ℚ
  total_debit : ℚ
  opening_balance : Option ℚ
  closing_balance : Option ℚ
deriving DecidableEq, Repr

/-- Summary computation of `src/main.py` lines 160-175: the credit and debit
sums are accumulated over the rows whose `type` matches (the pandas
column-filter-and-sum), rounded to two decimals; the balances column is the
records' balances with missing values dropped, and opening/closing are its
first and last entries when it is non-empty. -/
def summarize (ts : List Txn) : Summary :=
  let totalCredit := ts.foldl (fun acc t => if t.type = "credit" then acc + t.amount else acc) 0
  let totalDebit := ts.foldl (fun acc t => if t.type = "debit" then acc + t.amount else acc) 0
  let balances := ts.filterMap Txn.balance
  { total_transactions := ts.length
    total_credit := roundTo2 totalCredit
    total_debit := roundTo2 totalDebit
    opening_balance := if balances.isEmpty then none else balances.head?
    closing_balance := if balances.isEmpty then none else balances.getLast? }

/-- A line qualifies as a transaction line (`src/main.py` lines 49-55) when it
has a date match and at least one amount match. -/
def lineQualifies (line : List Char) : Bool :=
  (searchDate line).isSome && !(findAmounts line).isEmpty

/-- Removal of the first occurrence of `pat` from `s` (used only to state the
spec's reading of description derivation, for comparison with the source's
replace-all semantics). -/
def removeFirstOcc : List Char → List Char → List Char
  | [], _ => []
  | c :: rest, pat =>
    if pat.isPrefixOf (c :: rest) then List.drop (pat.length - 1) rest
    else c :: removeFirstOcc rest pat

/-- Modelled from the spec's words (not the source): the description derived
by removing the matched date substring and each matched amount substring once,
then trimming — the reading under which each matched occurrence is deleted
exactly once. -/
def specDescription (line : List Char) : Option (List Char) :=
  match searchDate line with
  | none => none
  | some d =>
    some (pyStrip ((findAmounts line).foldl (fun s a => removeFirstOcc s a) (removeFirstOcc line d)))

/-! ### Shape of matched amount tokens, and totality of extraction -/

/-- Shape of every token matched by `AMOUNT_PATTERN`: a non-empty run of
digits/commas, a dot, two digits. -/
def amtShape (tok : List Char) : Prop :=
  ∃ run x y, tok = run ++ ['.', x, y] ∧ run ≠ [] ∧
    (∀ c ∈ run, isAmtChar c = true) ∧ x.isDigit = true ∧ y.isDigit = true

lemma matchAmountAt_shape {s tok r : List Char}
    (h : matchAmountAt s = some (tok, r)) : amtShape tok := by
  unfold matchAmountAt at h
  split at h
  · next p x y rest heq =>
    simp only [] at h
    split at h
    · next hcond =>
      simp only [Bool.and_eq_true, Bool.not_eq_true', decide_eq_true_eq] at hcond
      obtain ⟨⟨⟨hrun, hp⟩, hx⟩, hy⟩ := hcond
      injection h with h
      injection h with h1 h2
      subst hp
      exact ⟨s.takeWhile isAmtChar, x, y, h1.symm, by simpa [List.isEmpty_eq_false] using hrun,
        fun c hc => List.mem_takeWhile_imp hc, hx, hy⟩
    · exact absurd h (by simp)
  · exact absurd h (by simp)

lemma findAmountsGo_shape :
    ∀ (fuel : Nat) (s tok : List Char), tok ∈ findAmountsGo fuel s → amtShape tok := by
  intro fuel
  induction fuel with
  | zero => intro s tok h; simp [findAmountsGo] at h
  | succ n ih =>
    intro s tok h
    match s with
    | [] => simp [findAmountsGo] at h
    | c :: rest =>
      simp only [findAmountsGo] at h
      cases hm : matchAmountAt (c :: rest) with
      | none => rw [hm] at h; exact ih rest tok h
      | some pr =>
        obtain ⟨t0, r⟩ := pr
        rw [hm] at h
        rcases List.mem_cons.mp h with he | hmem
        · subst he; exact matchAmountAt_shape hm
        · exact ih r tok hmem

lemma findAmounts_shape {s tok : List Char} (h : tok ∈ findAmounts s) : amtShape tok :=
  findAmountsGo_shape _ _ _ h

lemma digit_bne_comma {c : Char} (h : c.isDigit = true) : (c != ',') = true := by
  simp only [bne_iff_ne, ne_eq]
  rintro rfl
  exact absurd h (by decide)

lemma stripCommas_shape {tok : List Char} (h : amtShape tok) :
    ∃ ds x y, stripCommas tok = ds ++ '.' :: x :: y :: [] ∧
      (∀ c ∈ ds, c.isDigit = true) ∧ x.isDigit = true ∧ y.isDigit = true := by
  obtain ⟨run, x, y, rfl, _hne, hrun, hx, hy⟩ := h
  refine ⟨stripCommas run, x, y, ?_, ?_, hx, hy⟩
  · unfold stripCommas
    rw [List.filter_append]
    congr 1
    simp [List.filter, digit_bne_comma hx, digit_bne_comma hy]
  · intro c hc
    simp only [stripCommas] at hc
    have h1 : isAmtChar c = true := hrun c (List.mem_of_mem_filter hc)
    have h2 : (c != ',') = true := List.of_mem_filter (p := fun c => c != ',') hc
    simp only [isAmtChar, Bool.or_eq_true, decide_eq_true_eq] at h1
    rcases h1 with h1 | h1
    · exact h1
    · exact absurd h1 (by simpa using h2)

lemma takeWhile_digits_dot (ds l : List Char) (hds : ∀ c ∈ ds, c.isDigit = true) :
    (ds ++ '.' :: l).takeWhile Char.isDigit = ds ∧
    (ds ++ '.' :: l).dropWhile Char.isDigit = '.' :: l := by
  induction ds with
  | nil => exact ⟨by simp [List.takeWhile_cons], by simp [List.dropWhile_cons]⟩
  | cons d ds ih =>
    have hd : d.isDigit = true := hds d (by simp)
    have hrec := ih (fun c hc => hds c (by simp [hc]))
    refine ⟨?_, ?_⟩
    · simpa [List.takeWhile_cons, hd] using hrec.1
    · simpa [List.dropWhile_cons, hd] using hrec.2

lemma parseDecimal_shape_isSome {tok : List Char} (h : amtShape tok) :
    stripCommas tok ≠ [] ∧ (parseDecimal (stripCommas tok)).isSome = true := by
  obtain ⟨ds, x, y, heq, hds, hx, hy⟩ := stripCommas_shape h
  rw [heq]
  refine ⟨by simp, ?_⟩
  obtain ⟨ht, hd⟩ := takeWhile_digits_dot ds (x :: y :: []) hds
  unfold parseDecimal
  rw [hd]
  simp [hx, hy]

lemma mem_of_head? {α : Type} {l : List α} {a : α} (h : l.head? = some a) : a ∈ l := by
  cases l with
  | nil => simp at h
  | cons c cs => simp at h; simp [h]

lemma mem_of_getLast? {α : Type} {l : List α} {a : α} (h : l.getLast? = some a) : a ∈ l := by
  rw [List.getLast?_eq_head?_reverse] at h
  exact (List.mem_reverse).mp (mem_of_head? h)

lemma extractLine_isSome (line : List Char) : (extractLine line).isSome = true := by
  unfold extractLine
  cases hs : searchDate line with
  | none => rfl
  | some d =>
    by_cases hA : (findAmounts line).isEmpty
    · simp [hA]
    · rw [Bool.not_eq_true] at hA
      have hne : findAmounts line ≠ [] := List.isEmpty_eq_false.mp hA
      have hlast : ∃ b, (findAmounts line).getLast? = some b := by
        rcases hb : (findAmounts line).getLast? with _ | b
        · exact absurd (List.getLast?_eq_none_iff.mp hb) hne
        · exact ⟨b, rfl⟩
      obtain ⟨b, hb⟩ := hlast
      have hbmem : b ∈ findAmounts line := mem_of_getLast? hb
      have hbshape := findAmounts_shape hbmem
      obtain ⟨hbne, hbsome⟩ := parseDecimal_shape_isSome hbshape
      obtain ⟨bv, hbv⟩ := Option.isSome_iff_exists.mp hbsome
      by_cases h2 : 2 ≤ (findAmounts line).length
      · have haidx : (findAmounts line).length - 2 < (findAmounts line).length :=
          Nat.sub_lt (by omega) (by omega)
        have ha : ∃ a, (findAmounts line).get? ((findAmounts line).length - 2) = some a := by
          rcases hx : (findAmounts line).get? ((findAmounts line).length - 2) with _ | a
          · exact absurd (List.get?_eq_none.mp hx) (by omega)
          · exact ⟨a, rfl⟩
        obtain ⟨a, ha⟩ := ha
        have hamem : a ∈ findAmounts line := List.get?_mem ha
        have ha2 : (findAmounts line)[(findAmounts line).length - 2]? = some a := by
          rw [← List.get?_eq_getElem?]; exact ha
        obtain ⟨av, hav⟩ := Option.isSome_iff_exists.mp
          (parseDecimal_shape_isSome (findAmounts_shape hamem)).2
        simp [hA, h2, ha2, hb, hav, hbv, List.isEmpty_eq_false.mpr hbne]
      · simp [hA, h2, hb, hbv, List.isEmpty_eq_false.mpr hbne]

lemma extractLines_isSome (ls : List (List Char)) : (extractLines ls).isSome = true := by
  induction ls with
  | nil => rfl
  | cons l ls ih =>
    unfold extractLines
    obtain ⟨r, hr⟩ := Option.isSome_iff_exists.mp (extractLine_isSome l)
    obtain ⟨ts, hts⟩ := Option.isSome_iff_exists.mp ih
    cases r with
    | none => simp [hr, hts]
    | some t => simp [hr, hts]

/-- C7: extraction never raises for the document as a whole: for every input
text, `extract_transactions` returns a (possibly empty) list.  The second
conjunct is why: every token matched by `AMOUNT_PATTERN` survives numeric
conversion after comma-stripping, so the conversion-failure path (which, being
guarded by nothing in the source, would abort the extraction) is
unreachable. -/
theorem extraction_never_raises (text : List Char) :
    (∃ ts, extractTransactions text = some ts) ∧
    (∀ line tok, tok ∈ findAmounts line → (parseDecimal (stripCommas tok)).isSome = true) := by
  constructor
  · exact Option.isSome_iff_exists.mp (extractLines_isSome (splitLines text))
  · intro line tok h
    exact (parseDecimal_shape_isSome (findAmounts_shape h)).2

/-- Witness for C7 at a concrete text. -/
theorem extraction_never_raises_w :
    (extractTransactions ("no dates here".toList)).isSome = true := by
  obtain ⟨ts, h⟩ := (extraction_never_raises ("no dates here".toList)).1
  rw [h]; rfl

/-! ### Classification: markers, fallback, frame, threading -/

lemma containsSub_spec (s pat : List Char) : containsSub s pat = true ↔ pat <:+: s := by
  induction s with
  | nil => simp [containsSub, List.infix_nil, List.isEmpty_iff]
  | cons c rest ih =>
    simp [containsSub, List.infix_cons_iff, List.isPrefixOf_iff_prefix, ih]

lemma balanceTier_strip (prev : Option ℚ) (t : Txn) :
    { balanceTier prev t with type := "unknown" } = { t with type := "unknown" } := by
  unfold balanceTier
  repeat' split
  all_goals rfl

lemma classifyTxn_strip (prev : Option ℚ) (t : Txn) :
    { classifyTxn prev t with type := "unknown" } = { t with type := "unknown" } := by
  unfold classifyTxn
  split
  · rfl
  · split
    · rfl
    · exact balanceTier_strip prev t

lemma applyGo_map_strip (prev : Option ℚ) (ts : List Txn) :
    (applyGo prev ts).map (fun t => { t with type := "unknown" }) =
      ts.map (fun t => { t with type := "unknown" }) := by
  induction ts generalizing prev with
  | nil => rfl
  | cons t ts ih => simp [applyGo, classifyTxn_strip, ih]

/-- C10: `apply_transaction_logic` modifies only the `type` field: the output
has the same length and order, and every record's `date`, `description`,
`amount` and `balance` are unchanged (overwriting `type` with a fixed value on
both sides makes the sequences equal). -/
theorem apply_logic_frame (ts : List Txn) :
    (applyTransactionLogic ts).length = ts.length ∧
    (applyTransactionLogic ts).map (fun t => { t with type := "unknown" }) =
      ts.map (fun t => { t with type := "unknown" }) := by
  refine ⟨?_, applyGo_map_strip none ts⟩
  have h := congrArg List.length (applyGo_map_strip none ts)
  simpa using h

/-- The last stated balance of a record sequence, if any. -/
def lastKnownBalance (ts : List Txn) : Option ℚ := (ts.filterMap Txn.balance).getLast?

lemma acc_step (prev : Option ℚ) (t : Txn) (ts : List Txn) (i : Nat) :
    (lastKnownBalance ((t :: ts).take (i + 1))).or prev =
      (lastKnownBalance (ts.take i)).or (nextPrev prev t) := by
  unfold lastKnownBalance nextPrev
  rw [List.take_succ_cons, List.filterMap_cons]
  cases hb : t.balance with
  | none => rfl
  | some b =>
    rw [List.getLast?_cons]
    cases hl : ((ts.take i).filterMap Txn.balance).getLast? with
    | none => simp
    | some x => simp

lemma applyGo_get? (ts : List Txn) : ∀ (prev : Option ℚ) (i : Nat),
    (applyGo prev ts).get? i =
      (ts.get? i).map (fun t => classifyTxn ((lastKnownBalance (ts.take i)).or prev) t) := by
  induction ts with
  | nil => intro prev i; simp [applyGo]
  | cons t ts ih =>
    intro prev i
    cases i with
    | zero => simp [applyGo, lastKnownBalance]
    | succ i =>
      simp only [applyGo, List.get?_cons_succ]
      rw [ih (nextPrev prev t) i]
      rw [← acc_step prev t ts i]

/-- C4: the classification pass threads one `prev_balance` accumulator in
order: it starts absent and, at each record, equals the balance of the latest
earlier record that carried one (carried forward unchanged across balance-less
records).  Stated observably: record `i` of the output is record `i` of the
input classified against the last known balance among records `0..i-1`. -/
theorem prev_balance_carry (ts : List Txn) (i : Nat) :
    (applyTransactionLogic ts).get? i =
      (ts.get? i).map (fun t => classifyTxn (lastKnownBalance (ts.take i)) t) := by
  unfold applyTransactionLogic
  rw [applyGo_get? ts none i, Option.or_none]

/-- C1: the explicit-marker tier.  A credit marker (the uppercased description
containing `" CR"` or `"/CR/"`, or ending in `"CR"`) forces `type = credit`; in
its absence a debit marker (`" DR"`, `"/DR/"`, or ending in `"DR"`) forces
`type = debit`; whenever a marker fires the result is independent of the
carried balance (the balance-delta tier is not consulted), and only when no
marker fires does the balance tier decide.  In particular a description
containing `"SALARY CR"` is classified credit regardless of balance trend. -/
theorem marker_tier_priority (prev alt : Option ℚ) (t : Txn) :
    (creditCond t = true →
      (classifyTxn prev t).type = "credit" ∧ classifyTxn prev t = classifyTxn alt t) ∧
    (creditCond t = false → debitCond t = true →
      (classifyTxn prev t).type = "debit" ∧ classifyTxn prev t = classifyTxn alt t) ∧
    (creditCond t = false → debitCond t = false → classifyTxn prev t = balanceTier prev t) ∧
    (containsSub (upperStr t.description) ("SALARY CR".toList) = true →
      (classifyTxn prev t).type = "credit") := by
  refine ⟨?_, ?_, ?_, ?_⟩
  · intro hc
    constructor <;> simp [classifyTxn, hc]
  · intro hc hd
    constructor <;> simp [classifyTxn, hc, hd]
  · intro hc hd
    simp [classifyTxn, hc, hd]
  · intro hsal
    have h1 : containsSub ("SALARY CR".toList) (" CR".toList) = true := by decide
    have h2 : (" CR".toList) <:+: upperStr t.description :=
      ((containsSub_spec _ _).mp h1).trans ((containsSub_spec _ _).mp hsal)
    have h3 : containsSub (upperStr t.description) (" CR".toList) = true :=
      (containsSub_spec _ _).mpr h2
    have hc : creditCond t = true := by
      simp only [creditCond, Bool.or_eq_true]
      exact Or.inl (Or.inl h3)
    simp [classifyTxn, hc]

/-- Witness for C1: a record whose description carries `"SALARY CR"` is
classified credit although its balance fell from the carried 10000 to 1. -/
theorem marker_tier_priority_w :
    (classifyTxn (some 10000)
      ⟨"05-01-2024".toList, "SALARY CR".toList, 5000, some 1, "unknown"⟩).type = "credit" :=
  ((marker_tier_priority (some 10000) none
    ⟨"05-01-2024".toList, "SALARY CR".toList, 5000, some 1, "unknown"⟩).1 (by decide)).1

/-- C2: the balance-delta tier, reached only when no marker fired: with both
`previous_balance` and the record's balance present, a strictly rising balance
yields credit, a strictly falling one debit, and a tie — or an absent side —
leaves the type `unknown`. -/
theorem balance_delta_fallback (prev : Option ℚ) (t : Txn)
    (hc : creditCond t = false) (hd : debitCond t = false) (hu : t.type = "unknown") :
    (∀ pb cb, prev = some pb → t.balance = some cb →
      ((pb < cb → (classifyTxn prev t).type = "credit") ∧
       (cb < pb → (classifyTxn prev t).type = "debit") ∧
       (cb = pb → (classifyTxn prev t).type = "unknown"))) ∧
    ((prev = none ∨ t.balance = none) → (classifyTxn prev t).type = "unknown") := by
  have hcl : classifyTxn prev t = balanceTier prev t := by simp [classifyTxn, hc, hd]
  constructor
  · rintro pb cb rfl hcb
    refine ⟨?_, ?_, ?_⟩
    · intro hlt
      rw [hcl]; simp [balanceTier, hcb, hlt]
    · intro hlt
      rw [hcl]; simp [balanceTier, hcb, hlt, lt_asymm hlt]
    · rintro rfl
      rw [hcl]; simp [balanceTier, hcb, lt_irrefl, hu]
  · rintro (rfl | hnone)
    · rw [hcl]; simp [balanceTier, hu]
    · rw [hcl]; cases prev <;> simp [balanceTier, hnone, hu]

/-- Witness for C2: no markers, balances 1000 then 1500, classified credit. -/
theorem balance_delta_fallback_w :
    (classifyTxn (some 1000)
      ⟨"02-01-2024".toList, "POS 4521".toList, 500, some 1500, "unknown"⟩).type = "credit" :=
  ((balance_delta_fallback (some 1000)
    ⟨"02-01-2024".toList, "POS 4521".toList, 500, some 1500, "unknown"⟩
    (by decide) (by decide) rfl).1 1000 1500 rfl rfl).1 (by norm_num)

/-! ### Amount/balance assignment (C3) -/

lemma getLast?_pre_two {α : Type} (pre : List α) (a b : α) :
    (pre ++ [a, b]).getLast? = some b := by
  have h : pre ++ [a, b] = (pre ++ [a]) ++ [b] := by simp
  rw [h, List.getLast?_concat]

lemma get?_pre_two {α : Type} (pre : List α) (a b : α) :
    (pre ++ [a, b]).get? ((pre ++ [a, b]).length - 2) = some a := by
  have hlen : (pre ++ [a, b]).length = pre.length + 2 := by simp
  rw [hlen]
  have h2 : pre.length + 2 - 2 = pre.length := by omega
  rw [h2, List.get?_append_right (Nat.le_refl pre.length), Nat.sub_self]
  rfl

/-- C3: for every produced record, if the line carried exactly one monetary
token that token (commas stripped) is the `amount` and `balance` is absent; if
it carried two or more, the last token is the `balance` and the second-to-last
the `amount`. -/
theorem amount_balance_assignment (line : List Char) (t : Txn)
    (h : extractLine line = some (some t)) :
    (∀ a, findAmounts line = [a] →
      parseDecimal (stripCommas a) = some t.amount ∧ t.balance = none) ∧
    (∀ pre a b, findAmounts line = pre ++ [a, b] →
      parseDecimal (stripCommas a) = some t.amount ∧
      parseDecimal (stripCommas b) = t.balance) := by
  constructor
  · intro a ha
    unfold extractLine at h
    cases hs : searchDate line with
    | none => rw [hs] at h; exact absurd h (by simp)
    | some d =>
      rw [hs, ha] at h
      simp at h
      cases hpa : parseDecimal (stripCommas a) with
      | none => rw [hpa] at h; exact absurd h (by simp)
      | some va =>
        rw [hpa] at h
        simp at h
        rw [← h]
        exact ⟨rfl, rfl⟩
  · intro pre a b hpre
    have hbmem : b ∈ findAmounts line := by rw [hpre]; simp
    have hbne : stripCommas b ≠ [] :=
      (parseDecimal_shape_isSome (findAmounts_shape hbmem)).1
    unfold extractLine at h
    cases hs : searchDate line with
    | none => rw [hs] at h; exact absurd h (by simp)
    | some d =>
      have h2 : 2 ≤ (pre ++ [a, b]).length := by simp
      have hlast : (pre ++ [a, b]).getLast? = some b := getLast?_pre_two pre a b
      have hgets : (pre ++ [a, b]).get? ((pre ++ [a, b]).length - 2) = some a :=
        get?_pre_two pre a b
      have hget2 : (pre ++ [a, b])[(pre ++ [a, b]).length - 2]? = some a := by
        rw [← List.get?_eq_getElem?]; exact hgets
      have hempn : ¬((pre ++ [a, b]).isEmpty = true) := by simp
      have hbsn : ¬((stripCommas b).isEmpty = true) := by
        simpa [List.isEmpty_iff] using hbne
      rw [hs, hpre] at h
      simp only [] at h
      rw [if_neg hempn, if_pos h2, if_pos h2, hgets, hlast] at h
      simp only [Option.getD_some] at h
      cases hpa : parseDecimal (stripCommas a) with
      | none => rw [hpa] at h; exact absurd h (by simp)
      | some va =>
        rw [hpa] at h
        simp only [] at h
        rw [if_neg hbsn] at h
        cases hpb : parseDecimal (stripCommas b) with
        | none => rw [hpb] at h; exact absurd h (by simp)
        | some vb =>
          rw [hpb] at h
          simp at h
          rw [← h]
          exact ⟨rfl, rfl⟩

/-- Witness for C3 on the line `"01-02-2034 A 1.00 2.00"`: two tokens, so the
second-to-last is the amount and the last the balance. -/
theorem amount_balance_assignment_w :
    parseDecimal (stripCommas ("1.00".toList)) =
        some (⟨"01-02-2034".toList, ['A'], 1, some 2, "unknown"⟩ : Txn).amount ∧
    parseDecimal (stripCommas ("2.00".toList)) =
        (⟨"01-02-2034".toList, ['A'], 1, some 2, "unknown"⟩ : Txn).balance :=
  (amount_balance_assignment ("01-02-2034 A 1.00 2.00".toList)
      ⟨"01-02-2034".toList, ['A'], 1, some 2, "unknown"⟩
      (by simp [extractLine, searchDate, matchDateAt, findAmounts, findAmountsGo,
        matchAmountAt, isAmtChar, replaceAll, replaceAllGo, pyStrip, isPySpace,
        stripCommas, parseDecimal, digitsToNat, List.takeWhile, List.dropWhile])).2
    [] ("1.00".toList) ("2.00".toList) (by decide)

/-! ### Summary aggregation (C5) -/

lemma foldl_type_sum (s : String) (ts : List Txn) : ∀ acc : ℚ,
    ts.foldl (fun acc t => if t.type = s then acc + t.amount else acc) acc
      = acc + ((ts.filter (fun t => t.type == s)).map Txn.amount).sum := by
  induction ts with
  | nil => intro acc; simp
  | cons t ts ih =>
    intro acc
    by_cases hp : t.type = s
    · simp only [List.foldl_cons, List.filter_cons, hp, if_pos, beq_self_eq_true, ite_true,
        List.map_cons, List.sum_cons]
      rw [ih (acc + t.amount)]
      ring
    · simp only [List.foldl_cons, List.filter_cons, if_neg hp, beq_iff_eq]
      exact ih acc

lemma filterMap_head?_find? (ts : List Txn) :
    (ts.filterMap Txn.balance).head? =
      (ts.find? (fun t => (t.balance).isSome)).bind Txn.balance := by
  induction ts with
  | nil => rfl
  | cons t ts ih =>
    cases hb : t.balance with
    | none => simp [List.filterMap_cons, List.find?_cons, hb, ih]
    | some b => simp [List.filterMap_cons, List.find?_cons, hb]

lemma filterMap_getLast?_find? (ts : List Txn) :
    (ts.filterMap Txn.balance).getLast? =
      (ts.reverse.find? (fun t => (t.balance).isSome)).bind Txn.balance := by
  rw [List.getLast?_eq_head?_reverse, ← List.filterMap_reverse]
  exact filterMap_head?_find? ts.reverse

lemma isEmpty_guard_head? (l : List ℚ) :
    (if l.isEmpty then none else l.head?) = l.head? := by
  cases l <;> simp

lemma isEmpty_guard_getLast? (l : List ℚ) :
    (if l.isEmpty then none else l.getLast?) = l.getLast? := by
  cases l <;> simp

/-- C5: for the final record sequence, `total_transactions` is its length, the
credit and debit totals are the sums of `amount` over the records of the
matching `type` rounded to two decimal places (round-half-even, Python's
`round`), and opening/closing balances are the balances of the first and last
records whose balance is present (absent when none is). -/
theorem summary_aggregation (ts : List Txn) :
    (summarize ts).total_transactions = ts.length ∧
    (summarize ts).total_credit =
      roundTo2 (((ts.filter (fun t => t.type == "credit")).map Txn.amount).sum) ∧
    (summarize ts).total_debit =
      roundTo2 (((ts.filter (fun t => t.type == "debit")).map Txn.amount).sum) ∧
    (summarize ts).opening_balance =
      (ts.find? (fun t => (t.balance).isSome)).bind Txn.balance ∧
    (summarize ts).closing_balance =
      (ts.reverse.find? (fun t => (t.balance).isSome)).bind Txn.balance := by
  refine ⟨rfl, ?_, ?_, ?_, ?_⟩
  · show roundTo2 (ts.foldl (fun acc t => if t.type = "credit" then acc + t.amount else acc) 0)
      = roundTo2 (((ts.filter (fun t => t.type == "credit")).map Txn.amount).sum)
    rw [foldl_type_sum, zero_add]
  · show roundTo2 (ts.foldl (fun acc t => if t.type = "debit" then acc + t.amount else acc) 0)
      = roundTo2 (((ts.filter (fun t => t.type == "debit")).map Txn.amount).sum)
    rw [foldl_type_sum, zero_add]
  · show (if (ts.filterMap Txn.balance).isEmpty then none
        else (ts.filterMap Txn.balance).head?) = _
    rw [isEmpty_guard_head?]
    exact filterMap_head?_find? ts
  · show (if (ts.filterMap Txn.balance).isEmpty then none
        else (ts.filterMap Txn.balance).getLast?) = _
    rw [isEmpty_guard_getLast?]
    exact filterMap_getLast?_find? ts

/-! ### No-transactions reporting (C6, corrected) -/

lemma extractLine_nonqual {l : List Char} (h : lineQualifies l = false) :
    extractLine l = some none := by
  unfold lineQualifies at h
  unfold extractLine
  cases hs : searchDate l with
  | none => rfl
  | some d =>
    rw [hs] at h
    have h2 : (findAmounts l).isEmpty = true := by
      cases hfa : (findAmounts l).isEmpty
      · rw [hfa] at h; simp at h
      · rfl
    simp [List.isEmpty_iff.mp h2]

lemma extractLines_nonqual : ∀ {ls : List (List Char)},
    (∀ l ∈ ls, lineQualifies l = false) → extractLines ls = some [] := by
  intro ls
  induction ls with
  | nil => intro _; rfl
  | cons l ls ih =>
    intro h
    unfold extractLines
    rw [extractLine_nonqual (h l (by simp))]
    exact ih (fun x hx => h x (by simp [hx]))

/-- Counterexample to C6 as stated: for the whitespace-only text `" "` no line
qualifies and extraction is empty, yet the flow reports `EmptyInput` (HTTP 400
"Empty or scanned PDF", `src/main.py` line 141) before the no-transactions
check is ever reached, so the reported condition is not
`NoTransactionsFound`. -/
theorem no_transactions_blank_counterexample :
    (splitLines (" ".toList)).all (fun l => !lineQualifies l) = true ∧
    extractTransactions (" ".toList) = some [] ∧
    processText (" ".toList) = Except.error UploadErr.emptyInput ∧
    UploadErr.emptyInput ≠ UploadErr.noTransactionsFound :=
  ⟨by decide, by decide, rfl, by decide⟩

/-- C6 amended: provided the text is not blank (blank text is reported as
`EmptyInput` first), if no line both matches the date pattern and carries an
amount token then extraction returns the empty sequence and the flow reports
the structured `NoTransactionsFound` failure — never the crash-modelling
`extractFailed`.  The last conjunct records that a line with a date match but
no amount match is discarded rather than extracted. -/
theorem no_transactions_reported (text : List Char)
    (h1 : (pyStrip text).isEmpty = false)
    (h2 : (splitLines text).all (fun l => !lineQualifies l) = true) :
    extractTransactions text = some [] ∧
    processText text = Except.error UploadErr.noTransactionsFound ∧
    (∀ l d, searchDate l = some d → findAmounts l = [] → extractLine l = some none) := by
  have hq : ∀ l ∈ splitLines text, lineQualifies l = false := by
    intro l hl
    simpa using List.all_eq_true.mp h2 l hl
  have hext : extractTransactions text = some [] := extractLines_nonqual hq
  refine ⟨hext, ?_, ?_⟩
  · unfold processText
    rw [h1]
    simp only [Bool.false_eq_true, if_false]
    rw [hext]
    rfl
  · intro l d hs hf
    unfold extractLine
    rw [hs]
    simp [hf]

/-- Witness for the amended C6 at the concrete text `"hello"`. -/
theorem no_transactions_reported_w :
    processText ("hello".toList) = Except.error UploadErr.noTransactionsFound :=
  (no_transactions_reported ("hello".toList) (by decide) (by decide)).2.1

/-! ### Description derivation (C8, corrected) -/

/-- Counterexample to C8 as stated: on the line
`"01-01-2024 PAY 1.00 21.00"` the matched tokens are `"1.00"` and `"21.00"`;
removing the matched substrings and trimming (the claim's reading, computed by
`specDescription`) gives `"PAY"`, but the code's sequential replace-all leaves
`"PAY  2"`, because deleting every occurrence of `"1.00"` also deletes the
tail of `"21.00"`. -/
theorem description_removal_counterexample :
    extractLine ("01-01-2024 PAY 1.00 21.00".toList) =
      some (some ⟨"01-01-2024".toList, "PAY  2".toList, 1, some 21, "unknown"⟩) ∧
    specDescription ("01-01-2024 PAY 1.00 21.00".toList) = some ("PAY".toList) ∧
    ("PAY  2".toList ≠ "PAY".toList) := by
  refine ⟨?_, by decide, by decide⟩
  simp [extractLine, searchDate, matchDateAt, findAmounts, findAmountsGo, matchAmountAt,
    isAmtChar, replaceAll, replaceAllGo, pyStrip, isPySpace, stripCommas, parseDecimal,
    digitsToNat, List.takeWhile, List.dropWhile]

/-- C8 amended: the record's description equals the line after deleting every
occurrence of the matched date string, then — for each matched amount token in
order — every occurrence of that token's text (later deletions acting on the
text left by earlier ones), then trimming leading and trailing whitespace;
internal whitespace is preserved. -/
theorem description_replace_all_semantics (line d : List Char) (t : Txn)
    (hd : searchDate line = some d) (h : extractLine line = some (some t)) :
    t.description =
      pyStrip ((findAmounts line).foldl (fun s a => replaceAll s a) (replaceAll line d)) := by
  unfold extractLine at h
  rw [hd] at h
  simp only [] at h
  split at h
  · exact absurd h (by simp)
  · split at h
    · exact absurd h (by simp)
    · next amountVal heq =>
      split at h
      · simp at h
        rw [← h]
      · next bs hbs =>
        split at h
        · simp at h
          rw [← h]
        · split at h
          · exact absurd h (by simp)
          · next balVal heqb =>
            simp at h
            rw [← h]

/-- Witness for the amended C8 on the line `"01-02-2034 A 1.00 2.00"`. -/
theorem description_replace_all_semantics_w :
    (⟨"01-02-2034".toList, ['A'], 1, some 2, "unknown"⟩ : Txn).description =
      pyStrip ((findAmounts ("01-02-2034 A 1.00 2.00".toList)).foldl
        (fun s a => replaceAll s a)
        (replaceAll ("01-02-2034 A 1.00 2.00".toList) ("01-02-2034".toList))) :=
  description_replace_all_semantics ("01-02-2034 A 1.00 2.00".toList)
    ("01-02-2034".toList) ⟨"01-02-2034".toList, ['A'], 1, some 2, "unknown"⟩
    (by decide)
    (by simp [extractLine, searchDate, matchDateAt, findAmounts, findAmountsGo,
      matchAmountAt, isAmtChar, replaceAll, replaceAllGo, pyStrip, isPySpace,
      stripCommas, parseDecimal, digitsToNat, List.takeWhile, List.dropWhile])

end BankConv
